import Mathlib

/-!
Shallow embedding of the WindSurfDecrypt message pipeline
(src/windsurf_monitor.py and src/windsurf_decryptor.py).

Text is modelled as `List Char`, byte strings as `List Nat` (each entry < 256
where the source guarantees it).  Python string operations used by the source
(`in`, `split`, `strip`, `lower`, `startswith`, `encode('latin1')`,
`bytes.decode('utf-8', errors='ignore')`) are given executable models below.
All definitions are structurally recursive (fuel-indexed where needed) so that
concrete inputs evaluate by `decide`.
-/

/-- The newline character, produced when decoding byte 0x0A. -/
def nlChar : Char := Char.ofNat 10

/-- The NUL character, Python `'\x00'`. -/
def nulChar : Char := Char.ofNat 0

/-- The single-quote character. -/
def quoteChar : Char := Char.ofNat 39

/-- The double-quote character. -/
def dquoteChar : Char := Char.ofNat 34

/-- The backslash character. -/
def bsChar : Char := Char.ofNat 92

/-- Python `str.isspace` characters (the set stripped by `str.strip()`). -/
def pyIsSpace (c : Char) : Bool :=
  c.toNat = 9 || c.toNat = 10 || c.toNat = 11 || c.toNat = 12 || c.toNat = 13 ||
  c.toNat = 28 || c.toNat = 29 || c.toNat = 30 || c.toNat = 31 || c.toNat = 32 ||
  c.toNat = 0x85 || c.toNat = 0xa0 || c.toNat = 0x1680 ||
  (0x2000 ≤ c.toNat && c.toNat ≤ 0x200a) ||
  c.toNat = 0x2028 || c.toNat = 0x2029 || c.toNat = 0x202f ||
  c.toNat = 0x205f || c.toNat = 0x3000

/-- ASCII lower-casing of one character; models Python `str.lower` per character
(the messages the source handles are decoded ASCII, where this agrees with
Python's Unicode case mapping). -/
def asciiLower (c : Char) : Char :=
  if 65 ≤ c.toNat ∧ c.toNat ≤ 90 then Char.ofNat (c.toNat + 32) else c

/-- Models Python `str.lower()`. -/
def pyLower (s : List Char) : List Char := s.map asciiLower

/-- Strip all leading and trailing characters satisfying `p`
(Python `str.strip(chars)`). -/
def pyStripWith (p : Char → Bool) (s : List Char) : List Char :=
  (((s.dropWhile p).reverse.dropWhile p)).reverse

/-- Models Python `str.strip()` with no argument (whitespace). -/
def pyStrip (s : List Char) : List Char := pyStripWith pyIsSpace s

/-- Models the Python substring test `pat in s` (for nonempty `pat`). -/
def strContains (s pat : List Char) : Bool :=
  pat.isPrefixOf s ||
    match s with
    | [] => false
    | _ :: t => strContains t pat

/-- The prefix of `s` before the first occurrence of `pat` (all of `s` when
`pat` does not occur).  Models Python `s.split(pat)[0]` for nonempty `pat`. -/
def takeUntil (pat s : List Char) : List Char :=
  if pat.isPrefixOf s then []
  else
    match s with
    | [] => []
    | c :: t => c :: takeUntil pat t

/-- The suffix of `s` after the first occurrence of `pat` (`[]` when `pat`
does not occur). -/
def dropAfterFirst (pat s : List Char) : List Char :=
  if pat.isPrefixOf s then s.drop pat.length
  else
    match s with
    | [] => []
    | _ :: t => dropAfterFirst pat t

/-- The segment of `s` strictly between the first and second occurrences of
`pat` (to the end of `s` when there is no second occurrence).  Models Python
`s.split(pat)[1]`, which is well-defined whenever `pat` occurs in `s` — every
use in the source is guarded by a `pat in s` test. -/
def splitSecond (pat s : List Char) : List Char :=
  takeUntil pat (dropAfterFirst pat s)

/-- The marker `"windsurf"` tested against the lowercased text. -/
def kwWindsurf : List Char := ['w', 'i', 'n', 'd', 's', 'u', 'r', 'f']

/-- The separator `'$'`. -/
def kwDollar : List Char := ['$']

/-- The separator `'"'`. -/
def kwQuote : List Char := [dquoteChar]

/-- The marker `'en:'`. -/
def kwEn : List Char := ['e', 'n', ':']

/-- The separator `' '`. -/
def kwSpace : List Char := [' ']

/-- The marker `'R$'`. -/
def kwRD : List Char := ['R', '$']

/-- The marker `'Program Files'`. -/
def kwPF : List Char := ['P', 'r', 'o', 'g', 'r', 'a', 'm', ' ', 'F', 'i', 'l', 'e', 's']

/-- The separator `'\x00'`. -/
def kwNull : List Char := [nulChar]

/-- The fixed language literal `'ru'`. -/
def kwRu : List Char := ['r', 'u']

/-- The fixed Windows path `'C:\\Program Files'` (i.e. `C:\` followed by
`Program Files`). -/
def kwWinPrefix : List Char := ['C', ':', bsChar] ++ kwPF

/-- The escape marker `'\\x'` (backslash followed by `x`). -/
def kwBsx : List Char := [bsChar, 'x']

/-- Is `c` a UTF-8 continuation byte (0x80–0xBF)? -/
def utf8Cont (c : Nat) : Prop := 128 ≤ c ∧ c ≤ 191

instance (c : Nat) : Decidable (utf8Cont c) := by unfold utf8Cont; infer_instance

/-- Fuel-indexed model of CPython `bytes.decode('utf-8', errors='ignore')`:
valid sequences decode to their scalar value; the bytes of an invalid or
truncated sequence are dropped and decoding resumes at the first byte that was
not consumed by the invalid sequence.  (When a continuation byte is out of the
start-byte-specific range, CPython drops it together with the start byte; this
model re-examines it instead, which yields the same output because such a byte
can never begin a valid sequence.)  Fuel ≥ list length suffices. -/
def decodeUtf8F : Nat → List Nat → List Char
  | 0, _ => []
  | _ + 1, [] => []
  | f + 1, b :: rest =>
    if b < 128 then
      Char.ofNat b :: decodeUtf8F f rest
    else if 194 ≤ b ∧ b ≤ 223 then
      if 1 ≤ rest.length ∧ utf8Cont (rest.headD 0) then
        Char.ofNat ((b - 192) * 64 + (rest.headD 0 - 128)) :: decodeUtf8F f (rest.drop 1)
      else if rest.length = 0 then []
      else decodeUtf8F f rest
    else if 224 ≤ b ∧ b ≤ 239 then
      if 1 ≤ rest.length ∧ utf8Cont (rest.headD 0) ∧
          (b = 224 → 160 ≤ rest.headD 0) ∧ (b = 237 → rest.headD 0 ≤ 159) then
        if 2 ≤ rest.length ∧ utf8Cont ((rest.drop 1).headD 0) then
          Char.ofNat ((b - 224) * 4096 + (rest.headD 0 - 128) * 64 +
              ((rest.drop 1).headD 0 - 128)) :: decodeUtf8F f (rest.drop 2)
        else if rest.length = 1 then []
        else decodeUtf8F f (rest.drop 1)
      else if rest.length = 0 then []
      else decodeUtf8F f rest
    else if 240 ≤ b ∧ b ≤ 244 then
      if 1 ≤ rest.length ∧ utf8Cont (rest.headD 0) ∧
          (b = 240 → 144 ≤ rest.headD 0) ∧ (b = 244 → rest.headD 0 ≤ 143) then
        if 2 ≤ rest.length ∧ utf8Cont ((rest.drop 1).headD 0) then
          if 3 ≤ rest.length ∧ utf8Cont ((rest.drop 2).headD 0) then
            Char.ofNat ((b - 240) * 262144 + (rest.headD 0 - 128) * 4096 +
                ((rest.drop 1).headD 0 - 128) * 64 +
                ((rest.drop 2).headD 0 - 128)) :: decodeUtf8F f (rest.drop 3)
          else if rest.length = 2 then []
          else decodeUtf8F f (rest.drop 2)
        else if rest.length = 1 then []
        else decodeUtf8F f (rest.drop 1)
      else if rest.length = 0 then []
      else decodeUtf8F f rest
    else
      decodeUtf8F f rest

/-- Models `data.decode('utf-8', errors='ignore')` on a byte string. -/
def decodeUtf8Ignore (l : List Nat) : List Char := decodeUtf8F l.length l

/-- The result of `WindsurfDecryptor._parse_message`: the Python `parts` dict,
one optional entry per recognized field.  (The surrounding
`try/except` in the source never fires: every operation in the body is total,
so the `error` key cannot be produced.) -/
structure Parts where
  client_version : Option (List Char) := none
  session_id : Option (List Char) := none
  language : Option (List Char) := none
  version : Option (List Char) := none
  machine_id : Option (List Char) := none
  installation_path : Option (List Char) := none
  deriving DecidableEq, Repr

/-- Rule from `_parse_message`:
`if 'windsurf' in message.lower(): parts['client_version'] = message.split('$')[0].strip()`. -/
def fieldClientVersion (message : List Char) : Option (List Char) :=
  if strContains (pyLower message) kwWindsurf = true then
    some (pyStrip (takeUntil kwDollar message))
  else none

/-- Rule from `_parse_message`: under the same `'windsurf'` guard,
`if '$' in message:` take `session_part = message.split('$')[1]` and
`if '"' in session_part: parts['session_id'] = session_part.split('"')[0].strip()`. -/
def fieldSessionId (message : List Char) : Option (List Char) :=
  if strContains (pyLower message) kwWindsurf = true ∧ strContains message kwDollar = true ∧
      strContains (splitSecond kwDollar message) kwQuote = true then
    some (pyStrip (takeUntil kwQuote (splitSecond kwDollar message)))
  else none

/-- Rule from `_parse_message`: `if 'en:' in message:` take
`lang_part = message.split('en:')[1]` and `if ' ' in lang_part:
parts['version'] = lang_part.split(' ')[0].strip()`. -/
def fieldVersion (message : List Char) : Option (List Char) :=
  if strContains message kwEn = true ∧ strContains (splitSecond kwEn message) kwSpace = true then
    some (pyStrip (takeUntil kwSpace (splitSecond kwEn message)))
  else none

/-- The `language` entry as produced by `windsurf_monitor.py`: set to `'ru'`
together with `version` when `'en:'` occurs and the part after it contains a
space, and also set to `'ru'` by the `else` branch when `'en:'` does not occur
at all. -/
def fieldLanguageMonitor (message : List Char) : Option (List Char) :=
  if strContains message kwEn = true then
    if strContains (splitSecond kwEn message) kwSpace = true then some kwRu else none
  else some kwRu

/-- The `language` entry as produced by `windsurf_decryptor.py`: set to `'ru'`
only together with `version` (there is no `else` branch in this variant). -/
def fieldLanguageDecryptor (message : List Char) : Option (List Char) :=
  if strContains message kwEn = true ∧ strContains (splitSecond kwEn message) kwSpace = true then
    some kwRu
  else none

/-- Rule from `_parse_message`: `if 'R$' in message:` take
`machine_part = message.split('R$')[1]` and `if 'windsurf' in
machine_part.lower(): parts['machine_id'] = machine_part.split('windsurf')[0].strip()`. -/
def fieldMachineId (message : List Char) : Option (List Char) :=
  if strContains message kwRD = true ∧
      strContains (pyLower (splitSecond kwRD message)) kwWindsurf = true then
    some (pyStrip (takeUntil kwWindsurf (splitSecond kwRD message)))
  else none

/-- Rule from `_parse_message`: `if 'Program Files' in message:` take
`path_parts = message.split('Program Files')[1:]` (nonempty exactly when the
guard holds) and set `parts['installation_path'] =
'C:\\Program Files' + path_parts[0].split('\x00')[0]`. -/
def fieldInstallPath (message : List Char) : Option (List Char) :=
  if strContains message kwPF = true then
    some (kwWinPrefix ++ takeUntil kwNull (splitSecond kwPF message))
  else none

/-- Models `WindsurfDecryptor._parse_message` of `windsurf_monitor.py` applied to the
decoded text: the independent guarded dict inserts, one per field. -/
def extractMonitor (message : List Char) : Parts :=
  { client_version := fieldClientVersion message
    session_id := fieldSessionId message
    language := fieldLanguageMonitor message
    version := fieldVersion message
    machine_id := fieldMachineId message
    installation_path := fieldInstallPath message }

/-- Models `WindsurfDecryptor._parse_message` of `windsurf_decryptor.py` applied to
the decoded text (no `else` branch for `language`). -/
def extractDecryptor (message : List Char) : Parts :=
  { client_version := fieldClientVersion message
    session_id := fieldSessionId message
    language := fieldLanguageDecryptor message
    version := fieldVersion message
    machine_id := fieldMachineId message
    installation_path := fieldInstallPath message }

/-- The magic header bytes `b'\xC1\x0A'`. -/
def magicBytes : List Nat := [193, 10]

/-- Models `_parse_message` of `windsurf_monitor.py` on a byte string: decode with
UTF-8/ignore, then extract.  (This variant does not strip the magic header.) -/
def parseMonitor (data : List Nat) : Parts :=
  extractMonitor (decodeUtf8Ignore data)

/-- Models `_parse_message` of `windsurf_decryptor.py` on a byte string:
`if data.startswith(self.magic_header): data = data[2:]`, then decode with
UTF-8/ignore and extract. -/
def parseDecryptor (data : List Nat) : Parts :=
  extractDecryptor (decodeUtf8Ignore (if magicBytes.isPrefixOf data = true then data.drop 2 else data))

/-- The lowercase hex digit for `n < 16`. -/
def toHexDigit (n : Nat) : Char :=
  if n < 10 then Char.ofNat (48 + n) else Char.ofNat (87 + n)

/-- Fuel-indexed hex digits of `n` (no leading zeros; `[]` for 0). -/
def natToHexF : Nat → Nat → List Char
  | 0, _ => []
  | f + 1, n => if n = 0 then [] else natToHexF f (n / 16) ++ [toHexDigit (n % 16)]

/-- Lowercase hex digits of `n` (at least one digit). -/
def natToHex (n : Nat) : List Char :=
  if n = 0 then ['0'] else natToHexF (n + 1) n

/-- Models the Python format `f'{n:04x}'`: lowercase hex, zero-padded on the
left to a minimum of four digits (more digits when `n ≥ 16^4`). -/
def hex04 (n : Nat) : List Char :=
  List.replicate (4 - (natToHex n).length) '0' ++ natToHex n

/-- Models the Python format `f'{b:02x}'` for a byte value. -/
def hex02 (n : Nat) : List Char :=
  List.replicate (2 - (natToHex n).length) '0' ++ natToHex n

/-- Models Python `sep.join(parts)`. -/
def joinSep (sep : List Char) : List (List Char) → List Char
  | [] => []
  | [x] => x
  | x :: xs => x ++ sep ++ joinSep sep xs

/-- Models the Python format `f'{s:<48}'`: left-aligned, padded on the right
with spaces to a width of 48. -/
def padRight48 (s : List Char) : List Char :=
  s ++ List.replicate (48 - s.length) ' '

/-- Models `' '.join(f'{b:02x}' for b in chunk)` in `_hex_dump`. -/
def hexVals (chunk : List Nat) : List Char :=
  joinSep [' '] (chunk.map hex02)

/-- Models `''.join(chr(b) if 32 <= b <= 126 else '.' for b in chunk)` in `_hex_dump`. -/
def asciiVals (chunk : List Nat) : List Char :=
  chunk.map (fun b => if 32 ≤ b ∧ b ≤ 126 then Char.ofNat b else '.')

/-- One line of `_hex_dump`: `f'{pos:04x}: {hex_vals:<48} {ascii_vals}'`. -/
def hexLine (chunk : List Nat) (pos : Nat) : List Char :=
  hex04 pos ++ (':' :: ' ' :: padRight48 (hexVals chunk)) ++ (' ' :: asciiVals chunk)

/-- Fuel-indexed loop of `WindsurfDecryptor._hex_dump`:
`for i in range(0, len(data), 16)`, one line per 16-byte chunk, carrying the
running position `i + offset`.  Fuel ≥ list length suffices. -/
def hexDumpLinesF : Nat → List Nat → Nat → List (List Char)
  | 0, _, _ => []
  | f + 1, data, pos =>
    if data.isEmpty = true then []
    else hexLine (data.take 16) pos :: hexDumpLinesF f (data.drop 16) (pos + 16)

/-- The list of lines of `WindsurfDecryptor._hex_dump(data, offset)` (the
source joins them with newlines). -/
def hexDumpLines (data : List Nat) (offset : Nat) : List (List Char) :=
  hexDumpLinesF data.length data offset

/-- One step of the history buffer in `process_message`:
`self.messages.append(message)` followed by
`if len(self.messages) > max_history: self.messages.pop(0)`. -/
def histAppend (maxHistory : Nat) (l : List α) (x : α) : List α :=
  if maxHistory < (l ++ [x]).length then (l ++ [x]).drop 1 else l ++ [x]

/-- The history buffer after a sequence of `process_message` calls, starting
from the empty `self.messages`. -/
def histRun (maxHistory : Nat) (xs : List α) : List α :=
  xs.foldl (histAppend maxHistory) []

/-- The environment's answer to the single `session.post` call in
`APIClient.send_message`: either a response with an HTTP status code, or a
transport-level failure (an exception from `requests`). -/
inductive NetResult
  | response (status : Nat)
  | transportError
  deriving DecidableEq

/-- Models `APIClient.send_message`.  Result: first component is the returned
success flag, second records whether a network request was attempted.
Mirrors the source: `if not enabled: return False` (no request); otherwise one
POST; `response.raise_for_status()` raises exactly for status codes in
[400, 600), and any exception is caught, logged and turned into `False`. -/
def sendMessage (enabled : Bool) (net : NetResult) : Bool × Bool :=
  if enabled = false then (false, false)
  else
    match net with
    | NetResult.response s => if 400 ≤ s ∧ s < 600 then (false, true) else (true, true)
    | NetResult.transportError => (false, true)

/-- The value of an ASCII hex digit (either case), `none` otherwise. -/
def hexDigitVal (c : Char) : Option Nat :=
  if 48 ≤ c.toNat ∧ c.toNat ≤ 57 then some (c.toNat - 48)
  else if 97 ≤ c.toNat ∧ c.toNat ≤ 102 then some (c.toNat - 87)
  else if 65 ≤ c.toNat ∧ c.toNat ≤ 70 then some (c.toNat - 55)
  else none

/-- Models Python `bytes.fromhex` applied to a two-character string (the
`part[:2]` in the normalizer): ASCII spaces may only fill a whole pair; a pair
of hex digits (either case) is one byte; anything else raises `ValueError`. -/
def fromhex2 (c1 c2 : Char) : Option (List Nat) :=
  if c1 = ' ' ∧ c2 = ' ' then some []
  else if c1 = ' ' ∨ c2 = ' ' then none
  else
    match hexDigitVal c1, hexDigitVal c2 with
    | some a, some b => some [16 * a + b]
    | _, _ => none

/-- Models Python `str.encode('latin1')`: one byte per character, raising
(modelled as `none`) when a character is above U+00FF. -/
def encodeLatin1 (s : List Char) : Option (List Nat) :=
  s.mapM (fun c => if c.toNat ≤ 255 then some c.toNat else none)

/-- Fuel-indexed model of Python `s.split(sep)` for nonempty `sep`
(the full list of parts).  Fuel > list length suffices. -/
def pySplitF : Nat → List Char → List Char → List (List Char)
  | 0, _, _ => [[]]
  | f + 1, sep, s =>
    if sep ≠ [] ∧ sep.isPrefixOf s = true then
      [] :: pySplitF f sep (s.drop sep.length)
    else
      match s with
      | [] => [[]]
      | c :: t =>
        match pySplitF f sep t with
        | [] => [[c]]
        | h :: r => (c :: h) :: r

/-- Models Python `s.split(sep)` for nonempty `sep`. -/
def pySplit (sep s : List Char) : List (List Char) := pySplitF (s.length + 1) sep s

/-- One `part` of the normalizer's escaped-hex loop: with `len(part) >= 2`,
try `bytes.fromhex(part[:2])` and append the remaining characters
latin1-encoded; on `fromhex` failure (or a latin1 failure caught by the inner
`except`) encode the whole part as latin1; short parts are latin1-encoded
directly.  `none` models an uncaught `UnicodeEncodeError`. -/
def normHexPart (part : List Char) : Option (List Nat) :=
  if 2 ≤ part.length then
    match fromhex2 (part.headD ' ') ((part.drop 1).headD ' ') with
    | some bs =>
      match encodeLatin1 (part.drop 2) with
      | some rest => some (bs ++ rest)
      | none => encodeLatin1 part
    | none => encodeLatin1 part
  else encodeLatin1 part

/-- The quote/whitespace trimming of the normalizer:
`data.strip().strip("'").strip('"').strip()`. -/
def pyTrimQuotes (s : List Char) : List Char :=
  pyStrip (pyStripWith (fun c => c = dquoteChar) (pyStripWith (fun c => c = quoteChar) (pyStrip s)))

/-- The text branch of the input normalization shared by
`WindsurfDecryptor.decrypt_message` (windsurf_decryptor.py) and
`WindsurfDecryptor.process_message` (windsurf_monitor.py): trim, then either
decode the `'\x'` escaped-hex format (`hex_parts = [p for p in
data.split('\\x') if p]`, each part through `normHexPart`, concatenated) or
encode the trimmed text as latin1.  An exception inside the hex branch falls
back to `data.encode('latin1')` on the trimmed text; `none` models the
fallback itself raising (a character above U+00FF), which the callers turn
into an aborted message. -/
def pyNormalizeStr (s : List Char) : Option (List Nat) :=
  if strContains (pyTrimQuotes s) kwBsx = true then
    match ((pySplit kwBsx (pyTrimQuotes s)).filter (fun p => p ≠ [])).mapM normHexPart with
    | some bps => some bps.flatten
    | none => encodeLatin1 (pyTrimQuotes s)
  else encodeLatin1 (pyTrimQuotes s)

/-- The normalizer's input: Python `str` or `bytes`. -/
inductive PyData
  | str (s : List Char)
  | bytes (b : List Nat)

/-- The full input normalization: `if isinstance(data, str): ...` — byte
input is passed through unchanged. -/
def pyNormalize : PyData → Option (List Nat)
  | PyData.bytes b => some b
  | PyData.str s => pyNormalizeStr s

/-- Modelled from the claim wording of C4: the prefix of `s` before the first
case-insensitive occurrence of `pat` (`pat` given in lowercase). -/
def takeUntilCI (pat s : List Char) : List Char :=
  if pat.isPrefixOf (pyLower s) then []
  else
    match s with
    | [] => []
    | c :: t => c :: takeUntilCI pat t

/-- Modelled from the claim wording of C4: "the substring strictly between
`R$` and that case-insensitive `windsurf` occurrence, trimmed of surrounding
whitespace", where the occurrence is sought in the text following the first
`R$`. -/
def claimMachineId (msg : List Char) : List Char :=
  pyStrip (takeUntilCI kwWindsurf (dropAfterFirst kwRD msg))

/-- Modelled from the claim wording of C5: "the fixed prefix `C:\Program
Files` concatenated with the text after the first occurrence of `Program
Files`, truncated at the first null character". -/
def claimInstallPath (msg : List Char) : List Char :=
  kwWinPrefix ++ takeUntil kwNull (dropAfterFirst kwPF msg)

/-- Modelled from the claim wording of C6: "the substring after the first
`en:` up to the next space character". -/
def claimVersionAfterEn (msg : List Char) : List Char :=
  takeUntil kwSpace (dropAfterFirst kwEn msg)

/-- Modelled from the claim wording of C7: trim surrounding whitespace and a
single layer of matching leading/trailing quote characters. -/
def claimC7Trim (s : List Char) : List Char :=
  if 2 ≤ (pyStrip s).length ∧ (pyStrip s).head? = (pyStrip s).getLast? ∧
      ((pyStrip s).head? = some quoteChar ∨ (pyStrip s).head? = some dquoteChar) then
    ((pyStrip s).drop 1).dropLast
  else pyStrip s

/-- Modelled from the claim wording of C8: a line whose hex field is
"left-padded to 48 characters", i.e. padded on the left with spaces. -/
def claimHexLineLeft (chunk : List Nat) (pos : Nat) : List Char :=
  hex04 pos ++ (':' :: ' ' :: (List.replicate (48 - (hexVals chunk).length) ' ' ++ hexVals chunk))
    ++ (' ' :: asciiVals chunk)

/-! ## Validation of the models on concrete vectors

These facts pin the embedding to the behaviour of the CPython primitives and
to the worked examples of the specification. -/

/-- Validation: UTF-8/ignore decoding on a valid, an invalid-start, a
rejected-continuation and a truncated sequence, as CPython produces. -/
theorem decode_model_validation :
    decodeUtf8Ignore [104, 105] = ['h', 'i'] ∧
      decodeUtf8Ignore [193, 10, 65] = [nlChar, 'A'] ∧
      decodeUtf8Ignore [226, 130, 172] = [Char.ofNat 8364] ∧
      decodeUtf8Ignore [226, 65] = ['A'] ∧
      decodeUtf8Ignore [226, 130] = [] := by
  decide

/-- Validation: the specification's round-trip example — on
`windsurf-1.2$abc123"def` the extractor yields
`client_version = windsurf-1.2` and `session_id = abc123`. -/
theorem extract_model_validation_roundtrip :
    (extractMonitor ("windsurf-1.2$abc123".data ++ [dquoteChar] ++ "def".data)).client_version =
        some "windsurf-1.2".data ∧
      (extractMonitor ("windsurf-1.2$abc123".data ++ [dquoteChar] ++ "def".data)).session_id =
        some "abc123".data := by
  decide

/-- Validation: the specification's machine-id example — `R$m42windsurf`
yields `machine_id = m42`. -/
theorem extract_model_validation_machine_id :
    (extractMonitor "R$m42windsurf".data).machine_id = some "m42".data := by
  decide

/-- Validation: the normalizer on a plain text, an all-quotes text, and the
escaped-hex formats, as the CPython code produces. -/
theorem normalizer_model_validation :
    pyNormalizeStr " hi ".data = some [104, 105] ∧
      pyNormalizeStr [quoteChar, quoteChar, 'a', quoteChar, quoteChar] = some [97] ∧
      pyNormalizeStr [bsChar, 'x', 'c', '1', bsChar, 'x', '0', 'a'] = some [193, 10] ∧
      pyNormalizeStr [bsChar, 'x', 'z', 'q', 'w'] = some [122, 113, 119] ∧
      pyNormalizeStr [bsChar, 'x', 'a'] = some [97] ∧
      pyNormalizeStr ['x', bsChar, 'x', '4', '1', 'y', 'z'] = some [120, 65, 121, 122] := by
  refine ⟨by decide, by decide, by decide, by decide, by decide, by decide⟩

/-- Validation: Python split semantics, including the non-overlapping
left-to-right rule. -/
theorem pySplit_model_validation :
    pySplit ['$'] ['a', '$', 'b', '$'] = [['a'], ['b'], []] ∧
      pySplit ['a', 'a'] ['a', 'a', 'a'] = [[], ['a']] := by
  decide

/-! ## Lemmas about the string primitives -/

theorem isPrefixOf_cons_false {k c : Char} (ks t : List Char) (h : (k == c) = false) :
    ((k :: ks).isPrefixOf (c :: t)) = false := by
  simp only [List.isPrefixOf, Bool.and_eq_false_imp]
  intro hk
  simp [hk] at h

theorem isPrefixOf_eq_true_iff {α : Type} [BEq α] [LawfulBEq α] {l₁ l₂ : List α} :
    l₁.isPrefixOf l₂ = true ↔ l₁ <+: l₂ :=
  List.isPrefixOf_iff_prefix

theorem strContains_cons_eq {pat : List Char} (c : Char) (t : List Char)
    (h : pat.isPrefixOf (c :: t) = false) :
    strContains (c :: t) pat = strContains t pat := by
  rw [strContains, h]
  simp

theorem takeUntil_cons_eq {pat : List Char} (c : Char) (t : List Char)
    (h : pat.isPrefixOf (c :: t) = false) :
    takeUntil pat (c :: t) = c :: takeUntil pat t := by
  rw [takeUntil, if_neg (by simp [h])]

theorem dropAfterFirst_cons_eq {pat : List Char} (c : Char) (t : List Char)
    (h : pat.isPrefixOf (c :: t) = false) :
    dropAfterFirst pat (c :: t) = dropAfterFirst pat t := by
  rw [dropAfterFirst, if_neg (by simp [h])]

theorem splitSecond_cons_eq {pat : List Char} (c : Char) (t : List Char)
    (h : pat.isPrefixOf (c :: t) = false) :
    splitSecond pat (c :: t) = splitSecond pat t := by
  rw [splitSecond, splitSecond, dropAfterFirst_cons_eq c t h]

theorem pyStrip_cons_space {c : Char} (t : List Char) (h : pyIsSpace c = true) :
    pyStrip (c :: t) = pyStrip t := by
  rw [pyStrip, pyStrip, pyStripWith, pyStripWith, List.dropWhile_cons_of_pos h]

theorem pyLower_cons (c : Char) (t : List Char) :
    pyLower (c :: t) = asciiLower c :: pyLower t := rfl

/-! Extraction is unchanged by a leading newline: the decoded text obtained
after stripping the magic header differs from the un-stripped decoding only by
a leading `'\n'` (byte 0xC1 is never valid UTF-8 and is ignored), and none of
the extraction rules is sensitive to it. -/

theorem fieldClientVersion_nl (t : List Char) :
    fieldClientVersion (nlChar :: t) = fieldClientVersion t := by
  have hw : kwWindsurf.isPrefixOf (nlChar :: pyLower t) = false :=
    isPrefixOf_cons_false _ _ (by decide)
  have hd : kwDollar.isPrefixOf (nlChar :: t) = false :=
    isPrefixOf_cons_false _ _ (by decide)
  rw [fieldClientVersion, fieldClientVersion, pyLower_cons,
    (by decide : asciiLower nlChar = nlChar), strContains_cons_eq _ _ hw,
    takeUntil_cons_eq _ _ hd, pyStrip_cons_space _ (by decide)]

theorem fieldSessionId_nl (t : List Char) :
    fieldSessionId (nlChar :: t) = fieldSessionId t := by
  have hw : kwWindsurf.isPrefixOf (nlChar :: pyLower t) = false :=
    isPrefixOf_cons_false _ _ (by decide)
  have hd : kwDollar.isPrefixOf (nlChar :: t) = false :=
    isPrefixOf_cons_false _ _ (by decide)
  rw [fieldSessionId, fieldSessionId, pyLower_cons,
    (by decide : asciiLower nlChar = nlChar), strContains_cons_eq _ _ hw,
    strContains_cons_eq _ _ hd, splitSecond_cons_eq _ _ hd]

theorem fieldVersion_nl (t : List Char) :
    fieldVersion (nlChar :: t) = fieldVersion t := by
  have he : kwEn.isPrefixOf (nlChar :: t) = false :=
    isPrefixOf_cons_false _ _ (by decide)
  rw [fieldVersion, fieldVersion, strContains_cons_eq _ _ he, splitSecond_cons_eq _ _ he]

theorem fieldLanguageMonitor_nl (t : List Char) :
    fieldLanguageMonitor (nlChar :: t) = fieldLanguageMonitor t := by
  have he : kwEn.isPrefixOf (nlChar :: t) = false :=
    isPrefixOf_cons_false _ _ (by decide)
  rw [fieldLanguageMonitor, fieldLanguageMonitor, strContains_cons_eq _ _ he,
    splitSecond_cons_eq _ _ he]

theorem fieldLanguageDecryptor_nl (t : List Char) :
    fieldLanguageDecryptor (nlChar :: t) = fieldLanguageDecryptor t := by
  have he : kwEn.isPrefixOf (nlChar :: t) = false :=
    isPrefixOf_cons_false _ _ (by decide)
  rw [fieldLanguageDecryptor, fieldLanguageDecryptor, strContains_cons_eq _ _ he,
    splitSecond_cons_eq _ _ he]

theorem fieldMachineId_nl (t : List Char) :
    fieldMachineId (nlChar :: t) = fieldMachineId t := by
  have hr : kwRD.isPrefixOf (nlChar :: t) = false :=
    isPrefixOf_cons_false _ _ (by decide)
  rw [fieldMachineId, fieldMachineId, strContains_cons_eq _ _ hr, splitSecond_cons_eq _ _ hr]

theorem fieldInstallPath_nl (t : List Char) :
    fieldInstallPath (nlChar :: t) = fieldInstallPath t := by
  have hp : kwPF.isPrefixOf (nlChar :: t) = false :=
    isPrefixOf_cons_false _ _ (by decide)
  rw [fieldInstallPath, fieldInstallPath, strContains_cons_eq _ _ hp, splitSecond_cons_eq _ _ hp]

theorem extractMonitor_nl (t : List Char) :
    extractMonitor (nlChar :: t) = extractMonitor t := by
  rw [extractMonitor, extractMonitor, fieldClientVersion_nl, fieldSessionId_nl,
    fieldVersion_nl, fieldLanguageMonitor_nl, fieldMachineId_nl, fieldInstallPath_nl]

theorem extractDecryptor_nl (t : List Char) :
    extractDecryptor (nlChar :: t) = extractDecryptor t := by
  rw [extractDecryptor, extractDecryptor, fieldClientVersion_nl, fieldSessionId_nl,
    fieldVersion_nl, fieldLanguageDecryptor_nl, fieldMachineId_nl, fieldInstallPath_nl]

theorem decodeUtf8F_step_0A (f : Nat) (r : List Nat) :
    decodeUtf8F (f + 1) (10 :: r) = nlChar :: decodeUtf8F f r := by
  rw [decodeUtf8F, if_pos (by norm_num)]
  rfl

theorem decodeUtf8F_step_C1 (f : Nat) (r : List Nat) :
    decodeUtf8F (f + 1) (193 :: r) = decodeUtf8F f r := by
  rw [decodeUtf8F, if_neg (by norm_num), if_neg (by norm_num), if_neg (by norm_num),
    if_neg (by norm_num)]

/-- Decoding bytes starting with the magic header `0xC1 0x0A` yields a leading
newline followed by the decoding of the rest: `0xC1` can never start a valid
UTF-8 sequence and is ignored, `0x0A` is ASCII newline. -/
theorem decode_magic (r : List Nat) :
    decodeUtf8Ignore (193 :: 10 :: r) = nlChar :: decodeUtf8Ignore r := by
  show decodeUtf8F (193 :: 10 :: r).length (193 :: 10 :: r) = _
  rw [List.length_cons, List.length_cons, decodeUtf8F_step_C1, decodeUtf8F_step_0A]
  rfl

theorem magic_isPrefixOf_explicit (r : List Nat) :
    magicBytes.isPrefixOf (193 :: 10 :: r) = true := by
  simp [magicBytes, List.isPrefixOf]

/-- Claim C2 (confirmed): for every byte sequence starting with the magic
header `0xC1 0x0A`, field extraction yields the same field mapping as
extraction on the sequence with its first two bytes removed.  This holds for
the `windsurf_decryptor.py` parser (which strips the header explicitly) and
also for the `windsurf_monitor.py` parser (which does not strip it, but where
the header decodes to a single leading newline that no extraction rule
observes). -/
theorem c2_magic_header_strip (b : List Nat) (h : magicBytes.isPrefixOf b = true) :
    parseDecryptor b = parseDecryptor (b.drop 2) ∧ parseMonitor b = parseMonitor (b.drop 2) := by
  obtain ⟨r, hr⟩ := isPrefixOf_eq_true_iff.mp h
  have hb : b = 193 :: 10 :: r := hr.symm
  subst hb
  constructor
  · rw [parseDecryptor, if_pos (magic_isPrefixOf_explicit r)]
    show extractDecryptor (decodeUtf8Ignore r) = _
    by_cases h2 : magicBytes.isPrefixOf r = true
    · obtain ⟨r2, hr2⟩ := isPrefixOf_eq_true_iff.mp h2
      have hb2 : r = 193 :: 10 :: r2 := hr2.symm
      subst hb2
      rw [show List.drop 2 (193 :: 10 :: (193 :: 10 :: r2)) = 193 :: 10 :: r2 from rfl,
        parseDecryptor, if_pos (magic_isPrefixOf_explicit r2)]
      show extractDecryptor (decodeUtf8Ignore (193 :: 10 :: r2)) = _
      rw [decode_magic, extractDecryptor_nl]
      rfl
    · rw [show List.drop 2 (193 :: 10 :: r) = r from rfl, parseDecryptor, if_neg h2]
  · show parseMonitor (193 :: 10 :: r) = _
    rw [parseMonitor, parseMonitor, decode_magic, extractMonitor_nl]
    rfl

/-- Witness for C2 at the concrete input `b'\xC1\x0Aa'`. -/
theorem c2_magic_header_strip_witness :
    magicBytes.isPrefixOf [193, 10, 97] = true ∧
      (parseDecryptor [193, 10, 97] = parseDecryptor ([193, 10, 97].drop 2) ∧
        parseMonitor [193, 10, 97] = parseMonitor ([193, 10, 97].drop 2)) :=
  ⟨by decide, c2_magic_header_strip [193, 10, 97] (by decide)⟩

/-- Claim C1 counterexample: on empty raw bytes the monitor's field extractor
does not leave all six recognized fields absent — the `else` branch of the
`'en:'` rule sets `language` to the default `'ru'`. -/
theorem c1_language_counterexample : (parseMonitor []).language ≠ none := by decide

/-- Claim C1 (amended): for a message with empty raw bytes, ingestion succeeds
(every modelled operation is total), the hex dump has zero lines for every
base offset, and the extractor leaves all fields absent except `language`,
which is set to the fixed default `'ru'`. -/
theorem c1_empty_message_amended (offset : Nat) :
    hexDumpLines [] offset = [] ∧ parseMonitor [] = { language := some kwRu } := by
  exact ⟨rfl, by decide⟩

/-! ## History store (C3) -/

theorem histAppend_length_le {maxHistory : Nat} (l : List α) (x : α)
    (h : l.length ≤ maxHistory) : (histAppend maxHistory l x).length ≤ maxHistory := by
  rw [histAppend]
  split
  · rename_i hc
    simp only [List.length_drop, List.length_append, List.length_cons, List.length_nil] at *
    omega
  · rename_i hc
    simp only [List.length_append, List.length_cons, List.length_nil] at *
    omega

theorem foldl_histAppend_eq (maxHistory : Nat) :
    ∀ (xs l : List α), l.length ≤ maxHistory →
      List.foldl (histAppend maxHistory) l xs =
        (l ++ xs).drop (l.length + xs.length - maxHistory) := by
  intro xs
  induction xs with
  | nil =>
    intro l hl
    simp only [List.foldl_nil, List.append_nil, List.length_nil, Nat.add_zero]
    rw [Nat.sub_eq_zero_of_le hl, List.drop_zero]
  | cons x t ih =>
    intro l hl
    rw [List.foldl_cons]
    rw [ih (histAppend maxHistory l x) (histAppend_length_le l x hl)]
    by_cases hc : maxHistory < (l ++ [x]).length
    · have hlen : l.length = maxHistory := by
        simp only [List.length_append, List.length_cons, List.length_nil] at hc
        omega
      rw [histAppend, if_pos hc]
      have h1 : ((l ++ [x]).drop 1).length = l.length := by
        simp only [List.length_drop, List.length_append, List.length_cons, List.length_nil]
        omega
      rw [h1]
      have h2 : ((l ++ [x]) ++ t).drop 1 = (l ++ [x]).drop 1 ++ t :=
        List.drop_append_of_le_length (by simp)
      rw [← h2, List.drop_drop, List.append_assoc, List.singleton_append]
      congr 1
      simp only [List.length_cons]
      omega
    · rw [histAppend, if_neg hc]
      simp only [List.length_append, List.length_cons, List.length_nil] at hc
      rw [List.append_assoc, List.singleton_append]
      congr 2
      simp only [List.length_append, List.length_cons, List.length_nil]
      omega

theorem strContains_nil_unfold (pat : List Char) :
    strContains [] pat = (pat.isPrefixOf [] || false) := rfl

theorem strContains_cons_unfold (c : Char) (t pat : List Char) :
    strContains (c :: t) pat = (pat.isPrefixOf (c :: t) || strContains t pat) := rfl

theorem strContains_append_right (pat t r : List Char) (h : strContains t pat = true) :
    strContains (t ++ r) pat = true := by
  induction t with
  | nil =>
    rw [strContains_nil_unfold] at h
    simp only [Bool.or_false] at h
    have hp : pat = [] := by
      have := isPrefixOf_eq_true_iff.mp h
      simpa using this
    subst hp
    rw [List.nil_append]
    cases r with
    | nil => decide
    | cons c t' =>
      rw [strContains_cons_unfold]
      simp [List.isPrefixOf]
  | cons c t' ih =>
    rw [strContains_cons_unfold] at h
    rw [List.cons_append, strContains_cons_unfold]
    simp only [Bool.or_eq_true] at h
    rcases h with h1 | h1
    · have hpre : pat <+: (c :: t') := isPrefixOf_eq_true_iff.mp h1
      have hpre2 : pat <+: (c :: (t' ++ r)) := by
        obtain ⟨u, hu⟩ := hpre
        exact ⟨u ++ r, by rw [← List.append_assoc, hu, List.cons_append]⟩
      rw [isPrefixOf_eq_true_iff.mpr hpre2]
      simp
    · rw [ih h1]
      simp

theorem strContains_prefix_mono {pat t s : List Char} (hp : t <+: s)
    (h : strContains t pat = true) : strContains s pat = true := by
  obtain ⟨r, rfl⟩ := hp
  exact strContains_append_right pat t r h

theorem strContains_suffix_mono {pat : List Char} :
    ∀ {s t : List Char}, t <:+ s → strContains t pat = true → strContains s pat = true := by
  intro s
  induction s with
  | nil =>
    intro t hs ht
    rw [List.suffix_nil] at hs
    subst hs
    exact ht
  | cons c s' ih =>
    intro t hs ht
    rcases List.suffix_cons_iff.mp hs with h | h
    · subst h
      exact ht
    · rw [strContains_cons_unfold, ih h ht]
      simp

theorem strContains_infix_mono {pat t s : List Char} (hi : t <:+: s)
    (h : strContains t pat = true) : strContains s pat = true := by
  obtain ⟨s₁, s₂, rfl⟩ := hi
  have h1 : strContains (t ++ s₂) pat = true := strContains_append_right pat t s₂ h
  exact strContains_suffix_mono ⟨s₁, by rw [List.append_assoc]⟩ h1

theorem strContains_infix_false {pat t s : List Char} (h : strContains s pat = false)
    (hi : t <:+: s) : strContains t pat = false := by
  cases ht : strContains t pat with
  | false => rfl
  | true => rw [strContains_infix_mono hi ht] at h; simp at h

theorem takeUntil_prefix_self (pat : List Char) : ∀ s : List Char, takeUntil pat s <+: s := by
  intro s
  induction s with
  | nil =>
    rw [takeUntil]
    split
    · exact ⟨_, rfl⟩
    · exact ⟨_, rfl⟩
  | cons c t ih =>
    rw [takeUntil]
    split
    · exact ⟨_, rfl⟩
    · exact List.cons_prefix_cons.mpr ⟨rfl, ih⟩

theorem takeUntil_eq_self {pat : List Char} :
    ∀ {s : List Char}, strContains s pat = false → takeUntil pat s = s := by
  intro s
  induction s with
  | nil =>
    intro _
    rw [takeUntil]
    split <;> rfl
  | cons c t ih =>
    intro h
    rw [strContains] at h
    rcases Bool.or_eq_false_iff.mp h with ⟨h1, h2⟩
    rw [takeUntil, if_neg (by simp [h1])]
    rw [ih h2]

theorem pyStripWith_isInfix (p : Char → Bool) (s : List Char) : pyStripWith p s <:+: s := by
  have h1 : s.dropWhile p <:+ s := List.dropWhile_suffix p
  have h2 : (s.dropWhile p).reverse.dropWhile p <:+ (s.dropWhile p).reverse :=
    List.dropWhile_suffix p
  have h3 : ((s.dropWhile p).reverse.dropWhile p).reverse <+: s.dropWhile p := by
    obtain ⟨w, hw⟩ := h2
    refine ⟨w.reverse, ?_⟩
    rw [← List.reverse_append, hw, List.reverse_reverse]
  exact (h3.isInfix).trans h1.isInfix

theorem pyTrimQuotes_isInfix (s : List Char) : pyTrimQuotes s <:+: s := by
  rw [pyTrimQuotes, pyStrip, pyStrip]
  exact ((pyStripWith_isInfix _ _).trans ((pyStripWith_isInfix _ _).trans
    ((pyStripWith_isInfix _ _).trans (pyStripWith_isInfix _ _))))

/-- Claim C3 (confirmed): for every `maxHistory ≥ 1` and every sequence of
appends starting from the empty history, after each append (i.e. after the
first `i` of them, for every `i`) the history length never exceeds
`maxHistory`, and the retained records are exactly the most recently appended
ones in arrival order — the suffix obtained by dropping the `i - maxHistory`
oldest. -/
theorem c3_history_bound_fifo (α : Type) (maxHistory : Nat) (h : 1 ≤ maxHistory)
    (xs : List α) (i : Nat) (hi : i ≤ xs.length) :
    (histRun maxHistory (xs.take i)).length ≤ maxHistory ∧
      histRun maxHistory (xs.take i) = (xs.take i).drop (i - maxHistory) := by
  have htl : (xs.take i).length = i := by
    rw [List.length_take]
    omega
  have hrun : histRun maxHistory (xs.take i) = (xs.take i).drop (i - maxHistory) := by
    rw [histRun, foldl_histAppend_eq maxHistory (xs.take i) [] (by simp)]
    simp [htl]
  refine ⟨?_, hrun⟩
  rw [hrun]
  rw [List.length_drop, htl]
  omega

/-- Witness for C3: `maxHistory = 2`, three appends, checked after the third. -/
theorem c3_history_bound_fifo_witness :
    1 ≤ 2 ∧ 3 ≤ [10, 20, 30].length ∧
      ((histRun 2 ([10, 20, 30].take 3)).length ≤ 2 ∧
        histRun 2 ([10, 20, 30].take 3) = ([10, 20, 30].take 3).drop (3 - 2)) :=
  ⟨by decide, by decide, c3_history_bound_fifo Nat 2 (by decide) [10, 20, 30] 3 (by decide)⟩

/-- Claim C10 (confirmed): on text containing `windsurf` (case-insensitively)
but no `$`, the extractor sets `client_version` to the whole text trimmed and
no `session_id`; and whenever a `session_id` is produced, a `$` is present and
a `"` occurs after the first `$`. -/
theorem c10_client_version_session_id (msg : List Char) :
    (strContains (pyLower msg) kwWindsurf = true → strContains msg kwDollar = false →
      (extractMonitor msg).client_version = some (pyStrip msg) ∧
        (extractMonitor msg).session_id = none) ∧
    ((extractMonitor msg).session_id.isSome = true →
      strContains msg kwDollar = true ∧
        strContains (dropAfterFirst kwDollar msg) kwQuote = true) := by
  constructor
  · intro h1 h2
    constructor
    · show fieldClientVersion msg = _
      rw [fieldClientVersion, if_pos h1, takeUntil_eq_self h2]
    · show fieldSessionId msg = _
      rw [fieldSessionId, if_neg]
      intro hcon
      exact absurd hcon.2.1 (by simp [h2])
  · intro h
    have h' : (fieldSessionId msg).isSome = true := h
    by_cases hc : strContains (pyLower msg) kwWindsurf = true ∧
        strContains msg kwDollar = true ∧ strContains (splitSecond kwDollar msg) kwQuote = true
    · exact ⟨hc.2.1, strContains_prefix_mono (takeUntil_prefix_self kwDollar _) hc.2.2⟩
    · rw [fieldSessionId, if_neg hc] at h'
      simp at h'

/-- Witness for C10: the first conjunct at `"Windsurf!"`, the second at
`windsurf$ab"c` (which does produce a `session_id`). -/
theorem c10_client_version_session_id_witness :
    ((extractMonitor "Windsurf!".data).client_version = some (pyStrip "Windsurf!".data) ∧
      (extractMonitor "Windsurf!".data).session_id = none) ∧
    (strContains ("windsurf".data ++ ['$', 'a', 'b', dquoteChar, 'c']) kwDollar = true ∧
      strContains (dropAfterFirst kwDollar ("windsurf".data ++ ['$', 'a', 'b', dquoteChar, 'c']))
        kwQuote = true) :=
  ⟨(c10_client_version_session_id "Windsurf!".data).1 (by decide) (by decide),
    (c10_client_version_session_id ("windsurf".data ++ ['$', 'a', 'b', dquoteChar, 'c'])).2
      (by decide)⟩

/-- Claim C4 counterexample: at `R$abWindsurf` the claim's hypotheses hold
(the text after `R$`, lowercased, contains `windsurf`), the claim's value —
the substring strictly between `R$` and the case-insensitive occurrence,
trimmed — is `ab`, but the extractor returns `abWindsurf`: the source splits
on the case-SENSITIVE literal `'windsurf'`, which does not occur. -/
theorem c4_machine_id_counterexample :
    strContains "R$abWindsurf".data kwRD = true ∧
      strContains (pyLower (dropAfterFirst kwRD "R$abWindsurf".data)) kwWindsurf = true ∧
      claimMachineId "R$abWindsurf".data = ['a', 'b'] ∧
      (extractMonitor "R$abWindsurf".data).machine_id ≠
        some (claimMachineId "R$abWindsurf".data) := by
  decide

/-- Claim C4 (amended): if the text contains `R$` and the segment between the
first `R$` and the next `R$` (or the end of text), lowercased, contains
`windsurf`, then `machine_id` is that segment's prefix up to its first
case-sensitive occurrence of `windsurf` (the whole segment when the
occurrence is differently cased), trimmed of surrounding whitespace. -/
theorem c4_machine_id_amended (msg : List Char)
    (h1 : strContains msg kwRD = true)
    (h2 : strContains (pyLower (takeUntil kwRD (dropAfterFirst kwRD msg))) kwWindsurf = true) :
    (extractMonitor msg).machine_id =
      some (pyStrip (takeUntil kwWindsurf (takeUntil kwRD (dropAfterFirst kwRD msg)))) := by
  show fieldMachineId msg = _
  rw [fieldMachineId, if_pos ⟨h1, h2⟩]
  rfl

/-- Witness for C4 (amended) at `R$m42windsurfZ`. -/
theorem c4_machine_id_amended_witness :
    strContains "R$m42windsurfZ".data kwRD = true ∧
      strContains (pyLower (takeUntil kwRD (dropAfterFirst kwRD "R$m42windsurfZ".data)))
        kwWindsurf = true ∧
      (extractMonitor "R$m42windsurfZ".data).machine_id =
        some (pyStrip (takeUntil kwWindsurf
          (takeUntil kwRD (dropAfterFirst kwRD "R$m42windsurfZ".data)))) :=
  ⟨by decide, by decide, c4_machine_id_amended "R$m42windsurfZ".data (by decide) (by decide)⟩

/-- Claim C5 counterexample: at `Program FilesXProgram FilesY` the claim's
value — the fixed prefix plus all text after the first occurrence, truncated
at the first NUL — is `C:\Program FilesXProgram FilesY`, but the extractor
returns `C:\Program FilesX`: the source uses `split('Program Files')[1]`,
which stops at the second occurrence. -/
theorem c5_install_path_counterexample :
    strContains "Program FilesXProgram FilesY".data kwPF = true ∧
      (extractMonitor "Program FilesXProgram FilesY".data).installation_path ≠
        some (claimInstallPath "Program FilesXProgram FilesY".data) := by
  decide

/-- Claim C5 (amended): if the text contains `Program Files`, then
`installation_path` is `C:\Program Files` concatenated with the segment
strictly between the first and second occurrences of `Program Files` (to the
end of text when there is no second occurrence), truncated at the first NUL
character. -/
theorem c5_install_path_amended (msg : List Char) (h : strContains msg kwPF = true) :
    (extractMonitor msg).installation_path =
      some (kwWinPrefix ++ takeUntil kwNull (takeUntil kwPF (dropAfterFirst kwPF msg))) := by
  show fieldInstallPath msg = _
  rw [fieldInstallPath, if_pos h]
  rfl

/-- Witness for C5 (amended) at `AProgram FilesB`. -/
theorem c5_install_path_amended_witness :
    strContains "AProgram FilesB".data kwPF = true ∧
      (extractMonitor "AProgram FilesB".data).installation_path =
        some (kwWinPrefix ++ takeUntil kwNull
          (takeUntil kwPF (dropAfterFirst kwPF "AProgram FilesB".data))) :=
  ⟨by decide, c5_install_path_amended "AProgram FilesB".data (by decide)⟩

/-- Claim C6 counterexample: at `en:aen:b c` the text contains `en:` and the
claim's value — the substring after the first `en:` up to the next space — is
`aen:b`, yet the extractor sets neither `version` nor `language`: the source
looks for the space only inside `split('en:')[1]`, the segment `a` between
the two `en:` markers, and finds none. -/
theorem c6_version_language_counterexample :
    strContains "en:aen:b c".data kwEn = true ∧
      claimVersionAfterEn "en:aen:b c".data = "aen:b".data ∧
      (extractMonitor "en:aen:b c".data).version = none ∧
      (extractMonitor "en:aen:b c".data).language = none := by
  decide

/-- Claim C6 (amended): if the text contains `en:` and the segment between
the first `en:` and the next `en:` (or end of text) contains a space, then
`version` is that segment up to its first space, trimmed, and `language` is
the fixed default `ru`; when that segment contains no space the rule sets
neither field. -/
theorem c6_version_language_amended (msg : List Char) (h1 : strContains msg kwEn = true) :
    (strContains (takeUntil kwEn (dropAfterFirst kwEn msg)) kwSpace = true →
      (extractMonitor msg).version =
          some (pyStrip (takeUntil kwSpace (takeUntil kwEn (dropAfterFirst kwEn msg)))) ∧
        (extractMonitor msg).language = some kwRu) ∧
    (strContains (takeUntil kwEn (dropAfterFirst kwEn msg)) kwSpace = false →
      (extractMonitor msg).version = none ∧ (extractMonitor msg).language = none) := by
  constructor
  · intro h2
    have h2' : strContains (splitSecond kwEn msg) kwSpace = true := h2
    constructor
    · show fieldVersion msg = _
      rw [fieldVersion, if_pos ⟨h1, h2'⟩]
      rfl
    · show fieldLanguageMonitor msg = _
      rw [fieldLanguageMonitor, if_pos h1, if_pos h2']
  · intro h2
    have h2' : strContains (splitSecond kwEn msg) kwSpace = false := h2
    constructor
    · show fieldVersion msg = _
      rw [fieldVersion, if_neg]
      intro hc
      exact absurd hc.2 (by simp [h2'])
    · show fieldLanguageMonitor msg = _
      rw [fieldLanguageMonitor, if_pos h1, if_neg (by simp [h2'])]

/-- Witness for C6 (amended): the space case at `en:9.8 extra` (the claim's
own example), the no-space case at `en:9.8`. -/
theorem c6_version_language_amended_witness :
    ((extractMonitor "en:9.8 extra".data).version =
        some (pyStrip (takeUntil kwSpace
          (takeUntil kwEn (dropAfterFirst kwEn "en:9.8 extra".data)))) ∧
      (extractMonitor "en:9.8 extra".data).language = some kwRu) ∧
    ((extractMonitor "en:9.8".data).version = none ∧
      (extractMonitor "en:9.8".data).language = none) :=
  ⟨(c6_version_language_amended "en:9.8 extra".data (by decide)).1 (by decide),
    (c6_version_language_amended "en:9.8".data (by decide)).2 (by decide)⟩

/-- Claim C7 counterexample: the input `''a''` contains no `\x` marker; the
claim's trimming — whitespace plus a single layer of matching quotes — leaves
`'a'`, but the normalizer produces the latin1 encoding of `a`: the source
strips ALL leading/trailing single quotes (then all double quotes), not a
single matching layer. -/
theorem c7_normalizer_counterexample :
    strContains [quoteChar, quoteChar, 'a', quoteChar, quoteChar] kwBsx = false ∧
      claimC7Trim [quoteChar, quoteChar, 'a', quoteChar, quoteChar] =
        [quoteChar, 'a', quoteChar] ∧
      pyNormalizeStr [quoteChar, quoteChar, 'a', quoteChar, quoteChar] ≠
        encodeLatin1 (claimC7Trim [quoteChar, quoteChar, 'a', quoteChar, quoteChar]) := by
  decide

/-- Claim C7 (amended): for every text input with no `\x` marker, the
normalizer's output is the latin1 encoding of the input after stripping, in
order: surrounding whitespace, then all leading/trailing single quotes, then
all leading/trailing double quotes, then surrounding whitespace again (the
encoding, and with it the whole normalization, fails only when a character
exceeds U+00FF); an input that is already a byte sequence is returned
unchanged. -/
theorem c7_normalizer_amended (s : List Char) (h : strContains s kwBsx = false) :
    pyNormalizeStr s = encodeLatin1 (pyTrimQuotes s) ∧
      ∀ b : List Nat, pyNormalize (PyData.bytes b) = some b := by
  refine ⟨?_, fun b => rfl⟩
  rw [pyNormalizeStr,
    if_neg (by simp [strContains_infix_false h (pyTrimQuotes_isInfix s)])]

/-- Witness for C7 (amended) at the text `_'ab'_` (underscores denoting
spaces) and the byte sequence `[1, 2]`. -/
theorem c7_normalizer_amended_witness :
    strContains [' ', quoteChar, 'a', 'b', quoteChar, ' '] kwBsx = false ∧
      (pyNormalizeStr [' ', quoteChar, 'a', 'b', quoteChar, ' '] =
          encodeLatin1 (pyTrimQuotes [' ', quoteChar, 'a', 'b', quoteChar, ' ']) ∧
        ∀ b : List Nat, pyNormalize (PyData.bytes b) = some b) :=
  ⟨by decide, c7_normalizer_amended [' ', quoteChar, 'a', 'b', quoteChar, ' '] (by decide)⟩

/-- Claim C8 counterexample: on the one-byte input `b'a'` with base offset 0
the dump's single line is not the line the claim describes: the claim pads the
hex field on the left ("left-padded to 48 characters"), while the source's
`f'{hex_vals:<48}'` left-aligns, padding on the right. -/
theorem c8_hexdump_counterexample :
    hexDumpLines [97] 0 ≠ [claimHexLineLeft [97] 0] := by
  decide

theorem hexDumpLinesF_range (f : Nat) :
    ∀ (data : List Nat) (pos : Nat), data.length ≤ f →
      hexDumpLinesF f data pos = (List.range ((data.length + 15) / 16)).map
        (fun k => hexLine ((data.drop (16 * k)).take 16) (16 * k + pos)) := by
  induction f with
  | zero =>
    intro data pos h
    have hd : data = [] := List.length_eq_zero.mp (Nat.le_zero.mp h)
    subst hd
    rfl
  | succ f ih =>
    intro data pos h
    rw [hexDumpLinesF]
    by_cases hd : data.isEmpty = true
    · rw [if_pos hd]
      have hnil : data = [] := by simpa [List.isEmpty_iff] using hd
      subst hnil
      rfl
    · rw [if_neg hd]
      have hne : data ≠ [] := by simpa [List.isEmpty_iff] using hd
      have hlen : 1 ≤ data.length := List.length_pos.mpr hne
      rw [ih (data.drop 16) (pos + 16) (by rw [List.length_drop]; omega)]
      have hn : (data.length + 15) / 16 = ((data.drop 16).length + 15) / 16 + 1 := by
        rw [List.length_drop]
        omega
      rw [hn, List.range_succ_eq_map, List.map_cons, List.map_map]
      congr 1
      · simp
      · refine List.map_congr_left ?_
        intro k _
        simp only [Function.comp_apply, Nat.succ_eq_add_one]
        rw [List.drop_drop]
        have e0 : 16 + 16 * k = 16 * k + 16 := by ring
        have e1 : 16 * (k + 1) = 16 * k + 16 := by ring
        rw [e0, e1]
        congr 1
        omega

/-- Claim C8 (amended): for every byte sequence and base offset, the hex dump
has exactly `⌈len/16⌉` lines, and line `k` is the source's line format for the
`k`-th 16-byte chunk at position `16k + offset`: the position in lowercase hex
zero-padded to a minimum of four digits, `': '`, the space-separated
two-digit-hex bytes left-aligned (padded on the right) to 48 characters, a
space, and the ASCII column (bytes in [32,126] as their character, `.`
otherwise). -/
theorem c8_hexdump_amended (data : List Nat) (offset : Nat) :
    (hexDumpLines data offset).length = (data.length + 15) / 16 ∧
      hexDumpLines data offset = (List.range ((data.length + 15) / 16)).map
        (fun k => hexLine ((data.drop (16 * k)).take 16) (16 * k + offset)) := by
  have h := hexDumpLinesF_range data.length data offset le_rfl
  rw [hexDumpLines]
  exact ⟨by rw [h]; simp, h⟩

/-- Claim C9 (confirmed): with forwarding disabled, `send_message` reports
failure and attempts no network request, for every state of the network; with
forwarding enabled it succeeds exactly when the response status is outside
`raise_for_status`'s error range [400, 600), and any transport error yields
failure — in all cases without raising (the model is a total function). -/
theorem c9_dispatcher_disabled_and_status :
    (∀ net : NetResult, sendMessage false net = (false, false)) ∧
    (∀ s : Nat, (sendMessage true (NetResult.response s)).1 = true ↔ ¬(400 ≤ s ∧ s < 600)) ∧
    (sendMessage true NetResult.transportError).1 = false := by
  refine ⟨fun net => rfl, fun s => ?_, rfl⟩
  by_cases hc : 400 ≤ s ∧ s < 600
  · simp [sendMessage, hc]
  · simp [sendMessage, hc]
